import Mathlib

/-!
Verification of the Lattigo-STAT HE statistical operator library against its
natural-language specification.

Ciphertexts are modelled by the aspect each claim is about: their plaintext
slot contents (vectors of rationals indexed by `Fin (2 ^ m)`, the CKKS slot
count being a power of two), their level metadata, or their serialized bytes.
Go functions returning `error` are modelled with `Except String`.
-/

namespace LattigoStat

/-- Positivity of the slot count `2 ^ m`. -/
theorem twoPowPos (m : ℕ) : 0 < 2 ^ m := by positivity

/-- Plaintext slot contents of a CKKS ciphertext with `2 ^ m` slots. -/
abbrev SlotVec (m : ℕ) := Fin (2 ^ m) → ℚ

/-- Slot semantics of `Evaluator.Rotate` (pkg/he/evaluator.go): slot `i` of
`rotate(ct, k)` holds the value that was in slot `(i + k) mod S`. -/
def Rotate {m : ℕ} (ct : SlotVec m) (k : ℕ) : SlotVec m :=
  fun i => ct ⟨(i.val + k) % 2 ^ m, Nat.mod_lt _ (twoPowPos m)⟩

/-- The first `k` iterations of the `SumSlots` doubling loop
(pkg/he/evaluator.go).  The Go loop `for rot := 1; rot < slots; rot *= 2`
performs, for a slot count `2 ^ m`, exactly the rotations
`2 ^ 0, 2 ^ 1, …, 2 ^ (m - 1)` in that order; iteration `k` adds the rotation
by `2 ^ k` (`rotated := Rotate(result, rot); result += rotated`). -/
def SumSlotsIter {m : ℕ} (ct : SlotVec m) : ℕ → SlotVec m
  | 0 => ct
  | k + 1 => fun i => SumSlotsIter ct k i + Rotate (SumSlotsIter ct k) (2 ^ k) i

/-- Slot semantics of `Evaluator.SumSlots` (pkg/he/evaluator.go): run the
doubling loop for all rotations `1, 2, 4, …, 2 ^ (m - 1)`. -/
def SumSlots {m : ℕ} (ct : SlotVec m) : SlotVec m := SumSlotsIter ct m

/-- Loop invariant of the doubling reduction: after the rotations
`1, …, 2 ^ (k - 1)`, slot `i` holds the sum of the `2 ^ k` original slots
starting (cyclically) at `i`. -/
theorem sumSlotsIter_apply {m : ℕ} (ct : SlotVec m) (k : ℕ) (i : Fin (2 ^ m)) :
    SumSlotsIter ct k i =
      ∑ j ∈ Finset.range (2 ^ k),
        ct ⟨(i.val + j) % 2 ^ m, Nat.mod_lt _ (twoPowPos m)⟩ := by
  induction k generalizing i with
  | zero =>
    simp [SumSlotsIter, Nat.mod_eq_of_lt i.isLt]
  | succ k ih =>
    have h2 : 2 ^ (k + 1) = 2 ^ k + 2 ^ k := by rw [pow_succ]; omega
    show SumSlotsIter ct k i + Rotate (SumSlotsIter ct k) (2 ^ k) i = _
    rw [Rotate, ih, ih, h2, Finset.sum_range_add]
    congr 1
    refine Finset.sum_congr rfl fun j hj => ?_
    congr 1
    refine Fin.ext ?_
    show ((i.val + 2 ^ k) % 2 ^ m + j) % 2 ^ m = (i.val + (2 ^ k + j)) % 2 ^ m
    rw [Nat.mod_add_mod, Nat.add_assoc]

/-- C4: for every ciphertext packing `S = 2 ^ m` slot values, `SumSlots`
performs the doubling reduction `ct ← ct + rotate(ct, r)` for
`r ∈ {1, 2, 4, …, S / 2}` (see `SumSlotsIter`), and slot 0 of the result
holds the sum of all `S` initial slot values. -/
theorem SumSlots_slot_zero {m : ℕ} (ct : SlotVec m) :
    SumSlots ct ⟨0, twoPowPos m⟩ = ∑ i, ct i := by
  rw [SumSlots, sumSlotsIter_apply]
  have hg :
      (∑ i, ct i) =
        ∑ j ∈ Finset.range (2 ^ m),
          ct ⟨j % 2 ^ m, Nat.mod_lt _ (twoPowPos m)⟩ := by
    rw [← Fin.sum_univ_eq_sum_range
      (fun j => ct ⟨j % 2 ^ m, Nat.mod_lt _ (twoPowPos m)⟩) (2 ^ m)]
    refine Finset.sum_congr rfl fun i _ => ?_
    congr 1
    refine Fin.ext ?_
    show i.val = i.val % 2 ^ m
    rw [Nat.mod_eq_of_lt i.isLt]
  rw [hg]
  refine Finset.sum_congr rfl fun j hj => ?_
  congr 1
  refine Fin.ext ?_
  show (0 + j) % 2 ^ m = j % 2 ^ m
  rw [Nat.zero_add]

/-! Level-tracking model of the evaluator facade (pkg/he/evaluator.go).
Only the level metadata and the presence of a bootstrapper are relevant to
the bootstrap-decision functions, so a ciphertext is modelled by its level
plus an opaque payload tag. -/

/-- A ciphertext as seen by the bootstrap logic: its level and an opaque
payload identifying it. -/
structure LCiphertext where
  level : ℕ
  payload : ℕ
deriving DecidableEq

/-- The bootstrapping evaluator (lattigo's `bootstrapping.Evaluator`),
modelled by its minimum input level and its refresh function. -/
structure Bootstrapper where
  MinimumInputLevel : ℕ
  Refresh : LCiphertext → Except String LCiphertext

/-- The evaluator fields relevant to bootstrap decisions. -/
structure Evaluator where
  bootstrapper : Option Bootstrapper
  minLevel : ℕ

/-- Model of `NewEvaluator` (pkg/he/evaluator.go): `minLevel` is 2 by
default and the bootstrapper's minimum input level when one is given. -/
def NewEvaluator (btp : Option Bootstrapper) : Evaluator where
  bootstrapper := btp
  minLevel :=
    match btp with
    | some b => b.MinimumInputLevel
    | none => 2

/-- Model of `Evaluator.NeedsBootstrap`: true iff `ct.Level() <= e.minLevel`. -/
def NeedsBootstrap (e : Evaluator) (ct : LCiphertext) : Bool :=
  decide (ct.level ≤ e.minLevel)

/-- Model of `Evaluator.CanBootstrap`: true iff a bootstrapper is present. -/
def CanBootstrap (e : Evaluator) : Bool :=
  e.bootstrapper.isSome

/-- Model of `Evaluator.Bootstrap`: errors when no bootstrapper is present,
otherwise delegates to the bootstrapper. -/
def Bootstrap (e : Evaluator) (ct : LCiphertext) : Except String LCiphertext :=
  match e.bootstrapper with
  | none => .error "bootstrapping not available"
  | some b => b.Refresh ct

/-- Model of `Evaluator.MaybeBootstrap`: bootstraps only when needed and
possible, otherwise returns the original ciphertext without error. -/
def MaybeBootstrap (e : Evaluator) (ct : LCiphertext) : Except String LCiphertext :=
  if NeedsBootstrap e ct && CanBootstrap e then Bootstrap e ct else .ok ct

/-- C5: for every ciphertext `ct`, `MaybeBootstrap` returns `ct` unchanged
and without error whenever `NeedsBootstrap ct` is false — where
`NeedsBootstrap ct` holds iff `level ct ≤ minLevel`, `minLevel` being the
bootstrapper's minimum input level, or the constant 2 when bootstrapping is
disabled — and also whenever `NeedsBootstrap ct` is true but no bootstrapper
is available. -/
theorem MaybeBootstrap_noop (btp : Option Bootstrapper) (ct : LCiphertext) :
    (NeedsBootstrap (NewEvaluator btp) ct
        = decide (ct.level ≤
            match btp with
            | some b => b.MinimumInputLevel
            | none => 2)) ∧
    (NeedsBootstrap (NewEvaluator btp) ct = false →
      MaybeBootstrap (NewEvaluator btp) ct = .ok ct) ∧
    (NeedsBootstrap (NewEvaluator btp) ct = true →
      CanBootstrap (NewEvaluator btp) = false →
        MaybeBootstrap (NewEvaluator btp) ct = .ok ct) := by
  refine ⟨rfl, fun h => ?_, fun h hc => ?_⟩
  · simp [MaybeBootstrap, h]
  · simp [MaybeBootstrap, h, hc]

/-- Witness for C5: with bootstrapping disabled, a level-5 ciphertext does
not need bootstrap and is returned unchanged; a level-1 ciphertext needs
bootstrap but none is available, and is also returned unchanged. -/
theorem MaybeBootstrap_noop_witness :
    MaybeBootstrap (NewEvaluator none) ⟨5, 0⟩ = .ok ⟨5, 0⟩ ∧
    MaybeBootstrap (NewEvaluator none) ⟨1, 0⟩ = .ok ⟨1, 0⟩ :=
  ⟨(MaybeBootstrap_noop none ⟨5, 0⟩).2.1 (by decide),
   (MaybeBootstrap_noop none ⟨1, 0⟩).2.2 (by decide) (by decide)⟩

/-! Slot-value semantics of the evaluator's arithmetic primitives.  In the
plaintext model a rescale changes only scale metadata, so it is the identity
on slot values, and `MaybeBootstrap` preserves slot values as well. -/

namespace Eval

/-- Slot semantics of `Evaluator.Mul` followed by `Rescale`. -/
def Mul {m : ℕ} (a b : SlotVec m) : SlotVec m := fun i => a i * b i

/-- Slot semantics of `Evaluator.Add` / `AddInPlace`. -/
def Add {m : ℕ} (a b : SlotVec m) : SlotVec m := fun i => a i + b i

/-- Slot semantics of `Evaluator.Sub`. -/
def Sub {m : ℕ} (a b : SlotVec m) : SlotVec m := fun i => a i - b i

/-- Slot semantics of `Evaluator.AddConst`. -/
def AddConst {m : ℕ} (a : SlotVec m) (c : ℚ) : SlotVec m := fun i => a i + c

/-- Slot semantics of `Evaluator.MulConst`. -/
def MulConst {m : ℕ} (a : SlotVec m) (c : ℚ) : SlotVec m := fun i => a i * c

end Eval

/-! Model of the numeric operations package (pkg/ops/numeric). -/

/-- Configuration of the inverse n-th root computation, as in the source. -/
structure INVNTHSQRTConfig where
  N : ℕ
  Iterations : ℕ
  BootstrapFrequency : ℕ
  InitialGuess : ℚ

/-- Default config for the reciprocal (n = 1, 25 iterations, guess 0.5). -/
def DefaultINVConfig : INVNTHSQRTConfig := ⟨1, 25, 5, 1 / 2⟩

/-- Default config for the reciprocal square root (n = 2, 21 iterations). -/
def DefaultINVSQRTConfig : INVNTHSQRTConfig := ⟨2, 21, 5, 1 / 2⟩

/-- Slot value of `y^n` inside an INVNTHSQRT iteration: the source copies
`y` when n = 1 and calls `Power(y, n)` otherwise. -/
def INVNTHSQRTyN (N : ℕ) (y : ℚ) : ℚ :=
  if N = 1 then y else y ^ N

/-- Slot value of `t = rescale(x · yⁿ)` inside an INVNTHSQRT iteration. -/
def INVNTHSQRTt (N : ℕ) (x y : ℚ) : ℚ :=
  x * INVNTHSQRTyN N y

/-- Slot value of `u`: the source computes `AddConst(t, −(n+1))` and then
`MulConst(·, −1)`, realizing the constant-minus-ciphertext
`u = (n+1) − t` as `u = (−1) · (t − (n+1))`. -/
def INVNTHSQRTu (N : ℕ) (x y : ℚ) : ℚ :=
  (INVNTHSQRTt N x y + (-((N : ℚ) + 1))) * (-1)

/-- Slot value of one full Newton iteration of INVNTHSQRT: the source
computes `yNew = rescale(y · u)` and then `y = MulConst(yNew, 1/n)`. -/
def INVNTHSQRTstep (N : ℕ) (x y : ℚ) : ℚ :=
  (y * INVNTHSQRTu N x y) * (1 / (N : ℚ))

/-- Slot semantics of `NumericOp.INVNTHSQRT`: reject n < 1, start from the
constant initial guess in every slot, and run `Iterations` Newton steps
(bootstrapping does not change slot values in the plaintext model). -/
def INVNTHSQRT {m : ℕ} (x : SlotVec m) (config : INVNTHSQRTConfig) :
    Except String (SlotVec m) :=
  if config.N < 1 then .error "n must be positive"
  else
    .ok (fun i =>
      (fun y => INVNTHSQRTstep config.N (x i) y)^[config.Iterations]
        config.InitialGuess)

/-- C6: for every exponent n ≥ 1, a Newton iteration of INVNTHSQRT updates
y to `(1/n) · (y · ((n+1) − x·yⁿ))` in the slotwise plaintext model, with
the constant-minus-ciphertext `u = (n+1) − t` realized as
`u = (−1) · (t − (n+1))`. -/
theorem INVNTHSQRT_newton_step (N : ℕ) (_hN : 1 ≤ N) (x y : ℚ) :
    INVNTHSQRTu N x y = ((N : ℚ) + 1) - INVNTHSQRTt N x y ∧
    INVNTHSQRTstep N x y
      = (1 / (N : ℚ)) * (y * (((N : ℚ) + 1) - x * y ^ N)) := by
  have hyN : INVNTHSQRTyN N y = y ^ N := by
    by_cases h : N = 1
    · simp [INVNTHSQRTyN, h]
    · simp [INVNTHSQRTyN, h]
  refine ⟨by rw [INVNTHSQRTu]; ring, ?_⟩
  rw [INVNTHSQRTstep, INVNTHSQRTu, INVNTHSQRTt, hyN]
  ring

/-- Witness for C6: the Newton step at n = 2, x = 3, y = 1/2 satisfies the
update formula. -/
theorem INVNTHSQRT_newton_step_witness :
    1 ≤ 2 ∧
    INVNTHSQRTstep 2 3 (1 / 2)
      = (1 / (2 : ℚ)) * ((1 / 2) * (((2 : ℚ) + 1) - 3 * (1 / 2) ^ 2)) :=
  ⟨by norm_num, (INVNTHSQRT_newton_step 2 (by norm_num) 3 (1 / 2)).2⟩

/-- Wrapping of an inner error with a context message, modelling Go's
`fmt.Errorf("...: %w", err)` at the call sites of the numeric package. -/
def wrapCtx {α : Type} (s : String) : Except String α → Except String α
  | .error e => .error (s ++ e)
  | .ok a => .ok a

/-- Slot semantics of `NumericOp.MaskedSum` (sum of x·v over blocks, then
`SumSlots`): errors on a block-count mismatch and on an empty block list. -/
def MaskedSum {m : ℕ} (xBlocks vBlocks : List (SlotVec m)) :
    Except String (SlotVec m) :=
  if xBlocks.length ≠ vBlocks.length then .error "block count mismatch"
  else
    match List.zipWith Eval.Mul xBlocks vBlocks with
    | [] => .error "no blocks provided"
    | p :: rest => .ok (SumSlots (rest.foldl Eval.Add p))

/-- Slot semantics of `NumericOp.Count` (sum of v over blocks, then
`SumSlots`): errors on an empty block list. -/
def Count {m : ℕ} (vBlocks : List (SlotVec m)) : Except String (SlotVec m) :=
  match vBlocks with
  | [] => .error "no blocks provided"
  | v :: rest => .ok (SumSlots (rest.foldl Eval.Add v))

/-- Slot semantics of `NumericOp.MaskedSumOfSquares` (sum of x²·v over
blocks, then `SumSlots`). -/
def MaskedSumOfSquares {m : ℕ} (xBlocks vBlocks : List (SlotVec m)) :
    Except String (SlotVec m) :=
  if xBlocks.length ≠ vBlocks.length then .error "block count mismatch"
  else
    match List.zipWith (fun x v => Eval.Mul (Eval.Mul x x) v) xBlocks vBlocks with
    | [] => .error "no blocks provided"
    | p :: rest => .ok (SumSlots (rest.foldl Eval.Add p))

/-- Slot semantics of `NumericOp.MaskedCrossSum` (sum of x·y·v over blocks,
then `SumSlots`). -/
def MaskedCrossSum {m : ℕ} (xBlocks yBlocks vBlocks : List (SlotVec m)) :
    Except String (SlotVec m) :=
  if xBlocks.length ≠ yBlocks.length ∨ xBlocks.length ≠ vBlocks.length then
    .error "block count mismatch"
  else
    match List.zipWith Eval.Mul (List.zipWith Eval.Mul xBlocks yBlocks) vBlocks with
    | [] => .error "no blocks provided"
    | p :: rest => .ok (SumSlots (rest.foldl Eval.Add p))

/-- Slot semantics of `NumericOp.Mean`: `sum(x·v) · (1 / sum(v))` with the
reciprocal from INVNTHSQRT. -/
def Mean {m : ℕ} (xBlocks vBlocks : List (SlotVec m)) :
    Except String (SlotVec m) := do
  let sumXV ← wrapCtx "masked sum failed: " (MaskedSum xBlocks vBlocks)
  let count ← wrapCtx "count failed: " (Count vBlocks)
  let invCount ← wrapCtx "inverse count failed: "
    (INVNTHSQRT count DefaultINVConfig)
  return Eval.Mul sumXV invCount

/-- Slot semantics of `NumericOp.Variance`: `E[X²] − E[X]²`. -/
def Variance {m : ℕ} (xBlocks vBlocks : List (SlotVec m)) :
    Except String (SlotVec m) := do
  let mean ← wrapCtx "mean failed: " (Mean xBlocks vBlocks)
  let sumX2V ← wrapCtx "sum of squares failed: "
    (MaskedSumOfSquares xBlocks vBlocks)
  let count ← wrapCtx "count failed: " (Count vBlocks)
  let invCount ← wrapCtx "inverse count failed: "
    (INVNTHSQRT count DefaultINVConfig)
  return Eval.Sub (Eval.Mul sumX2V invCount) (Eval.Mul mean mean)

/-- Slot semantics of `NumericOp.Stdev`: `variance · variance^(−1/2)`. -/
def Stdev {m : ℕ} (xBlocks vBlocks : List (SlotVec m)) :
    Except String (SlotVec m) := do
  let variance ← wrapCtx "variance failed: " (Variance xBlocks vBlocks)
  let invSqrt ← wrapCtx "inv sqrt variance failed: "
    (INVNTHSQRT variance DefaultINVSQRTConfig)
  return Eval.Mul variance invSqrt

/-- Slot semantics of `NumericOp.Correlation`:
`cov(x,y) · varX^(−1/2) · varY^(−1/2)`. -/
def Correlation {m : ℕ} (xBlocks yBlocks vBlocks : List (SlotVec m)) :
    Except String (SlotVec m) := do
  let meanX ← wrapCtx "mean x failed: " (Mean xBlocks vBlocks)
  let meanY ← wrapCtx "mean y failed: " (Mean yBlocks vBlocks)
  let sumXY ← wrapCtx "sum xy failed: "
    (MaskedCrossSum xBlocks yBlocks vBlocks)
  let count ← wrapCtx "count failed: " (Count vBlocks)
  let invCount ← wrapCtx "inv count failed: "
    (INVNTHSQRT count DefaultINVConfig)
  let eXY := Eval.Mul sumXY invCount
  let eXeY := Eval.Mul meanX meanY
  let cov := Eval.Sub eXY eXeY
  let varX ← wrapCtx "var x failed: " (Variance xBlocks vBlocks)
  let varY ← wrapCtx "var y failed: " (Variance yBlocks vBlocks)
  let invSqrtVarX ← wrapCtx "inv sqrt var x failed: "
    (INVNTHSQRT varX DefaultINVSQRTConfig)
  let invSqrtVarY ← wrapCtx "inv sqrt var y failed: "
    (INVNTHSQRT varY DefaultINVSQRTConfig)
  return Eval.Mul (Eval.Mul cov invSqrtVarX) invSqrtVarY

/-- C10: for the empty list of input blocks, each numeric aggregation
primitive — MaskedSum, Count, MaskedSumOfSquares, and MaskedCrossSum —
returns an error and no result ciphertext, so Mean, Variance, Stdev, and
Correlation over zero blocks fail rather than produce a ciphertext. -/
theorem numeric_ops_empty_blocks (m : ℕ) :
    @MaskedSum m [] [] = .error "no blocks provided" ∧
    @Count m [] = .error "no blocks provided" ∧
    @MaskedSumOfSquares m [] [] = .error "no blocks provided" ∧
    @MaskedCrossSum m [] [] [] = .error "no blocks provided" ∧
    @Mean m [] [] = .error "masked sum failed: no blocks provided" ∧
    @Variance m [] []
      = .error "mean failed: masked sum failed: no blocks provided" ∧
    @Stdev m [] []
      = .error
          "variance failed: mean failed: masked sum failed: no blocks provided" ∧
    @Correlation m [] [] []
      = .error "mean x failed: masked sum failed: no blocks provided" :=
  ⟨rfl, rfl, rfl, rfl, rfl, rfl, rfl, rfl⟩

/-! Model of the ordinal percentile engine's flip mapping
(pkg/ops/ordinal, `applyFlipMapping`). -/

/-- Slot semantics of `OrdinalOp.applyFlipMapping`: `x² ← x · x`,
`term1 ← (−0.5) · x²`, `term2 ← 0.5 · x`, result `term1 + term2 + 1`. -/
def applyFlipMapping (x : ℚ) : ℚ :=
  let x2 := x * x
  let term1 := x2 * (-(1 / 2))
  let term2 := x * (1 / 2)
  (term1 + term2) + 1

/-- C8: the percentile flip mapping computes
`f(s) = −0.5·(s − 0.5)² + 1.125`, which equals `−0.5s² + 0.5s + 1` for
every s, and sends s = −1 to 0 and s = +1 to 1. -/
theorem applyFlipMapping_spec (s : ℚ) :
    applyFlipMapping s = -(1 / 2) * (s - 1 / 2) ^ 2 + 9 / 8 ∧
    applyFlipMapping s = -(1 / 2) * s ^ 2 + (1 / 2) * s + 1 ∧
    applyFlipMapping (-1) = 0 ∧
    applyFlipMapping 1 = 1 := by
  refine ⟨?_, ?_, ?_, ?_⟩
  · rw [applyFlipMapping]; ring
  · rw [applyFlipMapping]; ring
  · norm_num [applyFlipMapping]
  · norm_num [applyFlipMapping]

/-! Model of the Large-Bin-Count engine.  The repository holds two drafts:
pkg/ops/approx/discrete_equal_zero.go carries the spaced-power PBMV encoder
with config fields (Δ, δ, Λ) and the validator `ValidateLBcConfig`;
pkg/ops/categorical/binop.go carries a second draft whose config lacks δ and
whose encoder writes the category value itself into the slot. -/

/-- LBc configuration of the spaced-power draft: Δ (bit spacing), δ
(initial bit offset), Λ (BBMV scale exponent). -/
structure LBcConfig where
  Delta : ℤ
  DeltaOffset : ℤ
  LambdaBig : ℤ

/-- Default LBc configuration of the spaced-power draft. -/
def DefaultLBcConfig : LBcConfig := ⟨10, 10, 30⟩

/-- Model of `ValidateLBcConfig` (discrete_equal_zero.go): rejects
`δ + Δ·(S−1) > 52` and, separately, `Λ > 52`. -/
def ValidateLBcConfig (config : LBcConfig) (categories : ℤ) :
    Except String Unit :=
  if config.DeltaOffset + config.Delta * (categories - 1) > 52 then
    .error "PBMV exponent overflow"
  else if config.LambdaBig > 52 then
    .error "BBMV Lambda exceeds 52 bits"
  else .ok ()

/-- Ceiling of the base-2 logarithm, `⌈log₂ n⌉` for `1 ≤ n ≤ 2 ^ 63`: the
least k with `n ≤ 2 ^ k`.  Used only to state the spec's budget formula. -/
def ceilLog2 (n : ℕ) : ℕ :=
  (((List.range 64).filter (fun k => decide (n ≤ 2 ^ k))).headD 64)

/-- Counterexample to C1: at the default configuration δ = 10, Δ = 10,
Λ = 30 with S_f = 4 categories and 8192 slots (profile A), the spec's
budget sum δ + Δ·(S_f − 1) + Λ + ⌈log₂ slots⌉ = 83 exceeds 52, yet
`ValidateLBcConfig` accepts the configuration: the code never adds Λ or the
slot term to the budget. -/
theorem ValidateLBcConfig_budget_counterexample :
    ValidateLBcConfig DefaultLBcConfig 4 = .ok () ∧
    52 < DefaultLBcConfig.DeltaOffset + DefaultLBcConfig.Delta * (4 - 1)
        + DefaultLBcConfig.LambdaBig + (ceilLog2 8192 : ℤ) := by
  exact ⟨rfl, by decide⟩

/-- C1 (amended): `ValidateLBcConfig` returns an error iff
δ + Δ·(S_f − 1) > 52 or Λ > 52; the Λ term is not added to the PBMV
exponent and the `⌈log₂ slots⌉` term does not appear at all. -/
theorem ValidateLBcConfig_error_iff (config : LBcConfig) (categories : ℤ) :
    (∃ e, ValidateLBcConfig config categories = .error e) ↔
      (52 < config.DeltaOffset + config.Delta * (categories - 1) ∨
        52 < config.LambdaBig) := by
  rw [ValidateLBcConfig]
  by_cases h1 : 52 < config.DeltaOffset + config.Delta * (categories - 1)
  · simp [h1]
  · by_cases h2 : 52 < config.LambdaBig
    · simp [h1, h2]
    · simp [h1, h2]

/-- PBMV encoder state of the spaced-power draft. -/
structure PBMVEncoder where
  config : LBcConfig
  categories : ℤ
  slots : ℕ

/-- Model of `PBMVEncoder.EncodePBMV` (discrete_equal_zero.go): row i with
a valid value v ∈ [1..S_f] gets slot value `2^(δ + Δ·(v−1))` (the source
uses `math.Ldexp(1.0, exp)`), rows with invalid values and rows beyond the
input get 0. -/
def PBMVEncoder.EncodePBMV (p : PBMVEncoder) (values : List ℤ) : ℕ → ℚ :=
  fun i =>
    if i < p.slots then
      match values[i]? with
      | some v =>
        if v < 1 ∨ v > p.categories then 0
        else (2 : ℚ) ^ (p.config.DeltaOffset + p.config.Delta * (v - 1))
      | none => 0
    else 0

namespace Binop

/-- LBc configuration of the binop.go draft: only Δ and Λ, no δ. -/
structure LBcConfig where
  Delta : ℕ
  LambdaBig : ℕ

/-- Default LBc configuration of the binop.go draft. -/
def DefaultLBcConfig : LBcConfig := ⟨8, 10⟩

/-- PBMV encoder state of the binop.go draft. -/
structure PBMVEncoder where
  config : LBcConfig
  categories : ℤ
  slots : ℕ

/-- Model of `PBMVEncoder.EncodePBMV` (binop.go): for a valid value v the
code computes `pos := (v−1)·2^Δ` and, when `pos < slots`, writes the raw
value v itself into slot i (`result[i] = float64(v)`), else leaves 0. -/
def PBMVEncoder.EncodePBMV (p : PBMVEncoder) (values : List ℤ) : ℕ → ℚ :=
  fun i =>
    if i < p.slots then
      match values[i]? with
      | some v =>
        if 1 ≤ v ∧ v ≤ p.categories then
          if (v - 1) * 2 ^ p.config.Delta < (p.slots : ℤ) then (v : ℚ) else 0
        else 0
      | none => 0
    else 0

end Binop

/-- C3 bug evidence: on the row list [3] with S_f = 4 categories and 4096
slots, the spaced-power draft yields slot 0 = `2^(δ + Δ·(3−1))` as the spec
requires, while the binop.go draft (Δ = 8, its default) yields slot 0 = 3 —
the raw category value, not `2^(δ + Δ·(v−1))`, contradicting both the spec
and that draft's own doc comment. -/
theorem EncodePBMV_drafts_diverge :
    PBMVEncoder.EncodePBMV ⟨⟨10, 10, 30⟩, 4, 4096⟩ [3] 0
      = (2 : ℚ) ^ ((10 : ℤ) + 10 * (3 - 1)) ∧
    Binop.PBMVEncoder.EncodePBMV ⟨⟨8, 10⟩, 4, 4096⟩ [3] 0 = 3 ∧
    (3 : ℚ) ≠ (2 : ℚ) ^ ((10 : ℤ) + 8 * (3 - 1)) := by
  refine ⟨rfl, rfl, ?_⟩
  have h : ((10 : ℤ) + 8 * (3 - 1)) = ((26 : ℕ) : ℤ) := by norm_num
  rw [h, zpow_natCast]
  norm_num

/-- Result record of `ComputeLBc`.  `PackedResults` holds a single entry
that may be absent when there were no blocks (Go would pack a nil
pointer). -/
structure LBcResult (m : ℕ) where
  PackedResults : List (Option (SlotVec m))
  NumBlocks : ℕ
  RowsPerBlock : ℕ
  RequiresAggregation : Bool

/-- Model of `LBcComputer.ComputeLBc` (identical in both drafts): per block
multiply PBMV by validity and by each secondary column's BBMV, accumulate
all blocks into one packed ciphertext, and report
`requiresAgg := blockCount·rowsPerBlock > slots·2^Δ` with
`rowsPerBlock := slots`.  Store lookups that Go would fail (or panic) on are
modelled as upfront length checks. -/
def ComputeLBc {m : ℕ} (config : Binop.LBcConfig)
    (pbmvBlocks : List (SlotVec m))
    (bbmvColumns : List (List (SlotVec m)))
    (validityBlocks : List (SlotVec m)) :
    Except String (LBcResult m) :=
  if validityBlocks.length ≠ pbmvBlocks.length then
    .error "missing validity block"
  else if bbmvColumns.any (fun col => col.length ≠ pbmvBlocks.length) then
    .error "missing BBMV block"
  else
    let results := (List.range pbmvBlocks.length).map (fun b =>
      bbmvColumns.foldl (fun r col => Eval.Mul r (col.getD b (fun _ => 0)))
        (Eval.Mul (pbmvBlocks.getD b (fun _ => 0))
          (validityBlocks.getD b (fun _ => 0))))
    let packed := results.foldl
      (fun acc r =>
        match acc with
        | none => some r
        | some p => some (Eval.Add p r))
      none
    .ok ⟨[packed], pbmvBlocks.length, 2 ^ m,
      decide (pbmvBlocks.length * 2 ^ m > 2 ^ m * 2 ^ config.Delta)⟩

/-- C7: whenever `ComputeLBc` over NB input blocks succeeds, the
`RequiresAggregation` flag of the returned result equals
`R > S · 2^Δ`, where R = NB · S is the number of rows covered by the input
blocks (`RowsPerBlock` is the slot count S). -/
theorem ComputeLBc_requires_aggregation {m : ℕ} (config : Binop.LBcConfig)
    (pbmvBlocks : List (SlotVec m)) (bbmvColumns : List (List (SlotVec m)))
    (validityBlocks : List (SlotVec m)) (res : LBcResult m)
    (h : ComputeLBc config pbmvBlocks bbmvColumns validityBlocks = .ok res) :
    res.RowsPerBlock = 2 ^ m ∧
    res.NumBlocks = pbmvBlocks.length ∧
    (res.RequiresAggregation = true ↔
      res.NumBlocks * res.RowsPerBlock > 2 ^ m * 2 ^ config.Delta) := by
  simp only [ComputeLBc] at h
  split at h
  · exact Except.noConfusion h
  · split at h
    · exact Except.noConfusion h
    · cases h
      refine ⟨rfl, rfl, ?_⟩
      simp

/-- Witness for C7: one all-ones block of 2 slots with Δ = 0 and no
secondary columns; the flag is false and matches `R > S · 2^Δ` (2 > 2 is
false). -/
theorem ComputeLBc_requires_aggregation_witness :
    (LBcResult.RequiresAggregation (m := 1)
        ⟨[some (Eval.Mul (fun _ => 1) (fun _ => 1))], 1, 2, false⟩ = true)
      ↔ 1 * 2 > 2 ^ 1 * 2 ^ (0 : ℕ) := by
  have h := ComputeLBc_requires_aggregation (m := 1) ⟨0, 10⟩
    [fun _ => 1] [] [fun _ => 1]
    ⟨[some (Eval.Mul (fun _ => 1) (fun _ => 1))], 1, 2, false⟩ rfl
  exact h.2.2

/-! Model of the job specification package (pkg/jobs). -/

/-- Operation name constants, as in the source (Go `Operation` is a string
type). -/
def OpMean : String := "mean"

/-- Operation name for variance. -/
def OpVariance : String := "var"

/-- Operation name for standard deviation. -/
def OpStdev : String := "stdev"

/-- Operation name for Pearson correlation. -/
def OpCorr : String := "corr"

/-- Operation name for bin-count. -/
def OpBc : String := "bc"

/-- Operation name for bin-average. -/
def OpBa : String := "ba"

/-- Operation name for bin-variance. -/
def OpBv : String := "bv"

/-- Operation name for large-bin-count. -/
def OpLBc : String := "lbc"

/-- Operation name for k-percentile. -/
def OpPercentile : String := "percentile"

/-- Operation name for table lookup. -/
def OpLookup : String := "lookup"

/-- A categorical filter condition (column = value). -/
structure Condition where
  Column : String
  Value : ℤ

/-- A statistical computation request, as in pkg/jobs. -/
structure JobSpec where
  ID : String
  Operation : String
  Table : String
  InputColumns : List String
  TargetColumn : String
  Conditions : List Condition
  K : ℚ
  LookupValue : ℤ

/-- Model of `JobSpec.Validate`: the Go switch over the operation name with
its per-operation arity rules.  Note the percentile rule is
`j.K < 0 || j.K > 100`, which accepts K = 0. -/
def JobSpec.Validate (j : JobSpec) : Except String Unit :=
  if j.ID = "" then .error "job ID is required"
  else if j.Table = "" then .error "table name is required"
  else if j.Operation = OpMean ∨ j.Operation = OpVariance
      ∨ j.Operation = OpStdev then
    if j.InputColumns.length ≠ 1 then
      .error "operation requires exactly one input column"
    else .ok ()
  else if j.Operation = OpCorr then
    if j.InputColumns.length ≠ 2 then
      .error "operation corr requires exactly two input columns"
    else .ok ()
  else if j.Operation = OpBc then
    if j.Conditions.length = 0 then
      .error "operation bc requires at least one condition"
    else .ok ()
  else if j.Operation = OpBa ∨ j.Operation = OpBv then
    if j.Conditions.length = 0 then
      .error "operation requires at least one condition"
    else if j.TargetColumn = "" then
      .error "operation requires a target column"
    else .ok ()
  else if j.Operation = OpLBc then
    if j.InputColumns.length < 2 then
      .error "operation lbc requires at least two input columns"
    else .ok ()
  else if j.Operation = OpPercentile then
    if j.InputColumns.length ≠ 1 then
      .error "operation percentile requires exactly one ordinal column"
    else if j.K < 0 ∨ j.K > 100 then
      .error "k must be between 0 and 100"
    else .ok ()
  else if j.Operation = OpLookup then
    if j.InputColumns.length ≠ 1 then
      .error "operation lookup requires exactly one categorical column"
    else if j.TargetColumn = "" then
      .error "operation lookup requires a target column"
    else .ok ()
  else .error "unknown operation"

/-- C2 bug evidence: a percentile job with one input column and K = 0
passes `JobSpec.Validate` without error, although the spec requires
K ∈ (0, 100] (and the job runner itself rejects K ≤ 0 at execution time).
The validator's check is `K < 0 || K > 100`, i.e. it accepts [0, 100]. -/
theorem JobSpec_Validate_accepts_k_zero :
    JobSpec.Validate ⟨"p1", OpPercentile, "t1", ["risk"], "", [], 0, 0⟩
      = .ok () := by
  rfl

/-! Model of the ciphertext serialization helpers (pkg/storage):
`WriteCiphertext` and `ReadCiphertext` with the 8-byte little-endian u64
length prefix. -/

/-- Little-endian byte decomposition: `toLEBytes k n` is the k low-order
bytes of n, least significant first — for k = 8, exactly what
`binary.Write(w, binary.LittleEndian, uint64(n))` emits. -/
def toLEBytes : ℕ → ℕ → List ℕ
  | 0, _ => []
  | k + 1, n => n % 256 :: toLEBytes k (n / 256)

/-- Little-endian byte recomposition, the semantics of
`binary.Read(r, binary.LittleEndian, &length)`. -/
def fromLEBytes (bs : List ℕ) : ℕ :=
  bs.foldr (fun b acc => b + 256 * acc) 0

/-- The HE backend's opaque marshalling pair
(`ct.MarshalBinary` / `ct.UnmarshalBinary` from lattigo). -/
structure CiphertextCodec (Ct : Type) where
  MarshalBinary : Ct → Except String (List ℕ)
  UnmarshalBinary : List ℕ → Except String Ct

/-- Model of `WriteCiphertext` (storage): marshal, then emit the 8-byte
little-endian length prefix followed by the marshaled bytes. -/
def WriteCiphertext {Ct : Type} (codec : CiphertextCodec Ct) (ct : Ct) :
    Except String (List ℕ) :=
  match codec.MarshalBinary ct with
  | .error e => .error ("failed to marshal ciphertext: " ++ e)
  | .ok data => .ok (toLEBytes 8 data.length ++ data)

/-- Model of `ReadCiphertext` (storage): read the 8-byte length prefix
(erroring when the stream is shorter), read exactly that many bytes
(erroring when fewer remain, as `io.ReadFull` does), and unmarshal them. -/
def ReadCiphertext {Ct : Type} (codec : CiphertextCodec Ct)
    (stream : List ℕ) : Except String Ct :=
  if stream.length < 8 then .error "failed to read length"
  else if (stream.drop 8).length < fromLEBytes (stream.take 8) then
    .error "failed to read ciphertext data"
  else
    match codec.UnmarshalBinary
        ((stream.drop 8).take (fromLEBytes (stream.take 8))) with
    | .error e => .error ("failed to unmarshal ciphertext: " ++ e)
    | .ok c => .ok c

/-- Length of the little-endian decomposition. -/
theorem toLEBytes_length (k n : ℕ) : (toLEBytes k n).length = k := by
  induction k generalizing n with
  | zero => rfl
  | succ k ih => simp [toLEBytes, ih]

/-- Taking a prefix of its own length from an append returns the prefix. -/
theorem take_length_append {α : Type} (a b : List α) :
    (a ++ b).take a.length = a := by
  induction a with
  | nil => rfl
  | cons x xs ih => simp [ih]

/-- Dropping the prefix length from an append returns the suffix. -/
theorem drop_length_append {α : Type} (a b : List α) :
    (a ++ b).drop a.length = b := by
  induction a with
  | nil => rfl
  | cons x xs ih => simp [ih]

/-- Bottom-digit split of a modulus: for 0 < B,
`n % (256·B) = n % 256 + 256·(n / 256 % B)`. -/
theorem mod_mul_digit (B n : ℕ) (hB : 0 < B) :
    n % (256 * B) = n % 256 + 256 * (n / 256 % B) := by
  obtain ⟨Q, r, hn, hr⟩ :
      ∃ Q r, n = 256 * Q + r ∧ r < 256 :=
    ⟨n / 256, n % 256, (Nat.div_add_mod n 256).symm,
      Nat.mod_lt _ (by norm_num)⟩
  subst hn
  obtain ⟨P, s, hQ, hs⟩ :
      ∃ P s, Q = B * P + s ∧ s < B :=
    ⟨Q / B, Q % B, (Nat.div_add_mod Q B).symm, Nat.mod_lt _ hB⟩
  subst hQ
  have h1 : (256 * (B * P + s) + r) % 256 = r := by
    rw [Nat.mul_add_mod, Nat.mod_eq_of_lt hr]
  have h2 : (256 * (B * P + s) + r) / 256 = B * P + s := by
    rw [Nat.mul_add_div (by norm_num), Nat.div_eq_of_lt hr, Nat.add_zero]
  have h3 : (B * P + s) % B = s := by
    rw [Nat.mul_add_mod, Nat.mod_eq_of_lt hs]
  have h4 : 256 * (B * P + s) + r = 256 * B * P + (256 * s + r) := by ring
  have h5 : 256 * s + r < 256 * B := by omega
  rw [h1, h2, h3, h4, Nat.mul_add_mod, Nat.mod_eq_of_lt h5]
  omega

/-- Round trip of the little-endian length encoding. -/
theorem fromLEBytes_toLEBytes (k n : ℕ) :
    fromLEBytes (toLEBytes k n) = n % 256 ^ k := by
  induction k generalizing n with
  | zero => simp [toLEBytes, fromLEBytes, Nat.mod_one]
  | succ k ih =>
    show n % 256 + 256 * fromLEBytes (toLEBytes k (n / 256)) = n % 256 ^ (k + 1)
    rw [ih, pow_succ, Nat.mul_comm (256 ^ k) 256,
      mod_mul_digit (256 ^ k) n (by positivity)]

/-- C9: result-ciphertext serialization round-trips: `WriteCiphertext`
emits an 8-byte little-endian u64 length prefix followed by exactly the
marshaled bytes, and `ReadCiphertext` applied to the produced byte stream
returns the ciphertext that was written, given that the backend's
marshalling round-trips and the payload length fits in a u64. -/
theorem WriteRead_roundtrip {Ct : Type} (codec : CiphertextCodec Ct)
    (ct : Ct) (data : List ℕ)
    (hm : codec.MarshalBinary ct = .ok data)
    (hu : codec.UnmarshalBinary data = .ok ct)
    (hlen : data.length < 2 ^ 64) :
    WriteCiphertext codec ct = .ok (toLEBytes 8 data.length ++ data) ∧
    (toLEBytes 8 data.length).length = 8 ∧
    ReadCiphertext codec (toLEBytes 8 data.length ++ data) = .ok ct := by
  have hpl : (toLEBytes 8 data.length).length = 8 := toLEBytes_length 8 _
  refine ⟨by rw [WriteCiphertext, hm], hpl, ?_⟩
  have hns : ¬ (toLEBytes 8 data.length ++ data).length < 8 := by
    rw [List.length_append, hpl]; omega
  have htake : (toLEBytes 8 data.length ++ data).take 8
      = toLEBytes 8 data.length := by
    rw [← hpl]; exact take_length_append _ _
  have hdrop : (toLEBytes 8 data.length ++ data).drop 8 = data := by
    rw [← hpl]; exact drop_length_append _ _
  have hlen8 : fromLEBytes (toLEBytes 8 data.length) = data.length := by
    rw [fromLEBytes_toLEBytes]
    have h64 : (256 : ℕ) ^ 8 = 2 ^ 64 := by norm_num
    rw [h64, Nat.mod_eq_of_lt hlen]
  simp only [ReadCiphertext, htake, hdrop, hlen8]
  rw [if_neg hns, if_neg (lt_irrefl data.length), List.take_length, hu]

/-- Identity marshalling codec used to witness the round-trip theorem. -/
def idCodec : CiphertextCodec (List ℕ) :=
  ⟨fun ct => .ok ct, fun bs => .ok bs⟩

/-- Witness for C9: the concrete payload [3, 7] round-trips through the
length-prefixed stream under the identity codec. -/
theorem WriteRead_roundtrip_witness :
    ReadCiphertext idCodec (toLEBytes 8 2 ++ [3, 7]) = .ok [3, 7] := by
  have h := WriteRead_roundtrip idCodec [3, 7] [3, 7] rfl rfl (by norm_num)
  exact h.2.2

end LattigoStat
